import Mathlib

/-!
Verification of the cache-synchronization core of a GitHub statistics
generator (source: `src/query.rs`).  File contents are modelled as `List Char`
(byte-level identity matters for several claims); the SHA-256 identity hasher
and the GraphQL transport are modelled as function parameters (oracles), since
their outputs are opaque to the logic under verification.
-/

/-- Rust `BufRead::read_line` decomposition helper: accumulates characters of
the current line (in reverse) and emits each chunk including its trailing
newline; a final chunk without a newline is emitted as-is. -/
def chunksNLAux (acc : List Char) : List Char → List (List Char)
  | [] => if acc.isEmpty then [] else [acc.reverse]
  | c :: cs =>
    if c = '\n' then (acc.reverse ++ ['\n']) :: chunksNLAux [] cs
    else chunksNLAux (c :: acc) cs

/-- Decompose a file content into its lines, each keeping its trailing
newline (except a final unterminated line).  Mirrors repeated
`BufRead::read_line` calls in `flush_cache` (src/query.rs lines 540-555). -/
def chunksNL (s : List Char) : List (List Char) := chunksNLAux [] s

/-- Strip one trailing newline from a chunk, as Rust's `str::lines` does. -/
def stripNL (l : List Char) : List Char :=
  if l.getLast? = some '\n' then l.dropLast else l

/-- Rust `BufRead::lines` / `str::lines`: the lines of a file content, without
their newline terminators. -/
def rustLines (s : List Char) : List (List Char) := (chunksNL s).map stripNL

/-- Join lines writing each with a trailing newline, as `writeln!` does. -/
def joinNL (ls : List (List Char)) : List Char := (ls.map (fun l => l ++ ['\n'])).flatten

/-- Rust `str::split_whitespace` helper (accumulator in reverse). -/
def wordsAux (acc : List Char) : List Char → List (List Char)
  | [] => if acc.isEmpty then [] else [acc.reverse]
  | c :: cs =>
    if c.isWhitespace then
      (if acc.isEmpty then wordsAux [] cs else acc.reverse :: wordsAux [] cs)
    else wordsAux (c :: acc) cs

/-- Rust `str::split_whitespace`: whitespace-separated fields, no empties. -/
def words (l : List Char) : List (List Char) := wordsAux [] l

/-- Value of a decimal digit character, `none` for a non-digit. -/
def digitVal (c : Char) : Option Nat :=
  if c.isDigit then some (c.toNat - 48) else none

/-- Fold decimal digits into a number; `none` on any non-digit. -/
def digitsToNatAux (acc : Nat) : List Char → Option Nat
  | [] => some acc
  | c :: cs =>
    match digitVal c with
    | none => none
    | some d => digitsToNatAux (acc * 10 + d) cs

/-- Parse a non-empty all-digit string to a `Nat`. -/
def digitsToNat (l : List Char) : Option Nat :=
  if l.isEmpty then none else digitsToNatAux 0 l

/-- Rust integer-literal syntax: optional sign followed by digits. -/
def parseIntRaw (l : List Char) : Option Int :=
  match l with
  | '+' :: rest => (digitsToNat rest).map (fun n => (n : Int))
  | '-' :: rest => (digitsToNat rest).map (fun n => -(n : Int))
  | _ => (digitsToNat l).map (fun n => (n : Int))

/-- Rust `str::parse::<i64>`: syntax plus 64-bit range check. -/
def parseI64 (l : List Char) : Option Int :=
  (parseIntRaw l).filter (fun v => decide (-(2 ^ 63) ≤ v ∧ v < 2 ^ 63))

/-- Rust `str::parse::<i32>`: syntax plus 32-bit range check. -/
def parseI32 (l : List Char) : Option Int :=
  (parseIntRaw l).filter (fun v => decide (-(2 ^ 31) ≤ v ∧ v < 2 ^ 31))

/-- One entry of the repository edge list, keeping exactly the JSON fields
`cache_builder` reads: `/node/nameWithOwner` (as string) and
`/node/defaultBranchRef/target/history/totalCount` (as i64).  Either may be
absent or of the wrong JSON type, which the `Option` models. -/
structure Edge where
  nameWithOwner : Option (List Char)
  totalCount : Option Int

/-- The placeholder comment line written when the cache file is created
(src/query.rs lines 436-443). -/
def commentLine : List Char :=
  "This line is a comment block. Write whatever you want here.".toList

/-- The record line written for a stale repository:
`format!("{} {} {} {} {}\n", hash_str, current_commit_count, loc_total, loc_add_new, loc_del_new)`
(src/query.rs lines 504-507).  Note the embedded trailing newline. -/
def recordLine (hashStr : List Char) (current : Int) (t a d : Nat) : List Char :=
  hashStr ++ (' ' :: (toString current).toList) ++ (' ' :: (toString t).toList) ++
    (' ' :: (toString a).toList) ++ (' ' :: (toString d).toList) ++ ['\n']

/-- The zero-valued record line `format!("{} 0 0 0 0\n", hash)` written by
`flush_cache` for each edge bearing a `nameWithOwner` (src/query.rs 563-572). -/
def zeroRecordLine (hash : List Char → List Char) (n : List Char) : List Char :=
  hash n ++ " 0 0 0 0\n".toList

/-- `flush_cache` (src/query.rs lines 535-576): preserve the first
`comment_size` lines (with their newlines, stopping early at EOF), truncate,
and write one zero-valued record per edge that carries a `nameWithOwner`. -/
def flush_cache (hash : List Char → List Char) (edges : List Edge)
    (comment_size : Nat) (content : List Char) : List Char :=
  let preserved := (chunksNL content).take comment_size
  preserved.flatten ++
    (edges.filterMap (fun e => e.nameWithOwner.map (fun n => zeroRecordLine hash n))).flatten

/-- The guard chain of the per-edge body of `cache_builder`'s staleness loop
(src/query.rs lines 469-491): returns `some (hash_str, owner, repo_name,
current_commit_count)` exactly when the History Walker must be invoked, i.e.
when the edge has a `nameWithOwner`, a record line exists at this index, the
record's first token equals the edge's identity hash, and the stored commit
count (second token, parsed as i64, default 0) differs from the fresh total
(default 0). -/
def staleDecision (hash : List Char → List Char) (e : Edge)
    (line? : Option (List Char)) : Option (List Char × List Char × List Char × Int) :=
  match e.nameWithOwner with
  | none => none
  | some n =>
    let hashStr := hash n
    match line? with
    | none => none
    | some line =>
      let parts := words line
      if parts.head? = some hashStr then
        let current := (e.totalCount).getD 0
        let cachedCount := ((parts.get? 1).bind parseI64).getD 0
        if current ≠ cachedCount then
          some (hashStr, (n.splitOn '/').headD [], ((n.splitOn '/').get? 1).getD [], current)
        else none
      else none

/-- The staleness loop of `cache_builder` (src/query.rs lines 469-513),
instrumented with a log of the indices at which the History Walker
(`recursive_loc`) is invoked.  `walk` is the walker oracle (owner, repo name ↦
result); the walker's other arguments (`json_state`, the joined cache comment,
the zero accumulator and the `None` cursor) are constant at every call site
and absorbed into the oracle.  A walker error propagates as in the source's
`?` operator. -/
def cacheLoop {ε : Type} (hash : List Char → List Char)
    (walk : List Char → List Char → Except ε (Nat × Nat × Nat)) :
    List Edge → Nat → List (List Char) → Except ε (List (List Char) × List Nat)
  | [], _, lines => .ok (lines, [])
  | e :: rest, i, lines =>
    match staleDecision hash e (lines.get? i) with
    | none => cacheLoop hash walk rest (i + 1) lines
    | some (hs, ow, rp, cur) =>
      match walk ow rp with
      | .error err => .error err
      | .ok (a, d, t) =>
        match cacheLoop hash walk rest (i + 1) (lines.set i (recordLine hs cur t a d)) with
        | .error err => .error err
        | .ok (ls, log) => .ok (ls, i :: log)

/-- Step 1 of `cache_builder` (src/query.rs lines 430-450): if the cache file
exists read all its lines, otherwise create it holding `comment_size`
placeholder comment lines.  Returns the in-memory lines and the on-disk
content. -/
def initialData (comment_size : Nat) (file : Option (List Char)) :
    List (List Char) × List Char :=
  match file with
  | some content => (rustLines content, content)
  | none =>
    let comments := List.replicate comment_size commentLine
    (comments, joinNL comments)

/-- Steps 1-2 of `cache_builder` (src/query.rs lines 430-459): load or create
the file, then rebuild via `flush_cache` and reload whenever the loaded
record count (`data.len().saturating_sub(comment_size)`, Lean's `Nat`
subtraction is saturating) differs from the edge count or `force_cache` is
set.  Returns the post-rebuild lines, on-disk content, and the `cached`
flag. -/
def loadAndMaybeRebuild (hash : List Char → List Char) (edges : List Edge)
    (comment_size : Nat) (force_cache : Bool) (file : Option (List Char)) :
    List (List Char) × List Char × Bool :=
  let p := initialData comment_size file
  if p.1.length - comment_size ≠ edges.length ∨ force_cache = true then
    let c := flush_cache hash edges comment_size p.2
    (rustLines c, c, false)
  else (p.1, p.2, true)

/-- Error cases of `cache_builder`: the slice `data[..comment_size]` panics
when the loaded file has fewer than `comment_size` lines, and a walker error
propagates through `?`. -/
inductive CacheErr (ε : Type) where
  | sliceErr : CacheErr ε
  | walkFail : ε → CacheErr ε
deriving DecidableEq

/-- The per-record loc-added contribution of the summing loop at the end of
`cache_builder` (src/query.rs lines 524-530): fields of lines with at least 5
whitespace-separated parts, `parse::<i32>` with default 0. -/
def lineLocAdd (l : List Char) : Int :=
  let parts := words l
  if parts.length ≥ 5 then ((parts.get? 3).bind parseI32).getD 0 else 0

/-- The per-record loc-deleted contribution of the same summing loop. -/
def lineLocDel (l : List Char) : Int :=
  let parts := words l
  if parts.length ≥ 5 then ((parts.get? 4).bind parseI32).getD 0 else 0

/-- Sum of `lineLocAdd` over the record lines. -/
def sumLocAdd (ls : List (List Char)) : Int := (ls.map lineLocAdd).sum

/-- Sum of `lineLocDel` over the record lines. -/
def sumLocDel (ls : List (List Char)) : Int := (ls.map lineLocDel).sum

/-- `cache_builder` (src/query.rs lines 416-533).  `hash` models
`hex::encode(Sha256::digest(_))`; `walk` models `recursive_loc`'s
owner/repo-dependent outcome; `file` is the cache file content (`none` =
absent).  The result carries, beyond the source's
`(loc_add, loc_del, net, cached)` tuple, the final file content
(comment lines written with `writeln!`, record lines written with `write!`,
src/query.rs lines 515-522), the final in-memory record list, and the walker
invocation log, so that theorems can speak about the written state. -/
def cache_builder {ε : Type} (hash : List Char → List Char)
    (walk : List Char → List Char → Except ε (Nat × Nat × Nat))
    (edges : List Edge) (comment_size : Nat) (force_cache : Bool)
    (loc_add loc_del : Int) (file : Option (List Char)) :
    Except (CacheErr ε) ((Int × Int × Int × Bool) × List Char × List (List Char) × List Nat) :=
  let r := loadAndMaybeRebuild hash edges comment_size force_cache file
  let data := r.1
  let cached := r.2.2
  if comment_size > data.length then .error .sliceErr
  else
    let cache_comment := data.take comment_size
    let lines := data.drop comment_size
    match cacheLoop hash walk edges 0 lines with
    | .error e => .error (.walkFail e)
    | .ok (lines', walkLog) =>
      let content := joinNL cache_comment ++ lines'.flatten
      let a := loc_add + sumLocAdd lines'
      let d := loc_del + sumLocDel lines'
      .ok ((a, d, a - d, cached), content, lines', walkLog)

/-- Per-line contribution of `commit_counter`'s summing loop (src/query.rs
lines 261-273): lines with more than 3 whitespace-separated parts contribute
their third field parsed as i32 (parse failure contributes nothing). -/
def commitContrib (l : List Char) : Int :=
  let parts := words l
  if parts.length > 3 then ((parts.get? 2).bind parseI32).getD 0 else 0

/-- The enumerated loop of `commit_counter`: lines with index below
`comment_size` are skipped. -/
def commitCounterGo (comment_size idx : Nat) : List (List Char) → Int
  | [] => 0
  | l :: ls =>
    (if idx < comment_size then 0 else commitContrib l) + commitCounterGo comment_size (idx + 1) ls

/-- `commit_counter` (src/query.rs lines 252-276) applied to the cache file
content (the `File::open` failure when the file is absent is outside the
content model). -/
def commit_counter (comment_size : Nat) (content : List Char) : Int :=
  commitCounterGo comment_size 0 (rustLines content)

/-- Strip all trailing commas, as `trim_end_matches(',')` does
(src/query.rs line 400). -/
def stripCommas (l : List Char) : List Char :=
  if l.getLast? = some ',' then stripCommas l.dropLast else l
termination_by l.length
decreasing_by
  simp only [List.length_dropLast]
  cases l with
  | nil => simp_all
  | cons c cs => simp

/-- Loc-added contribution of one interior archive line (src/query.rs lines
380-394): lines with at least 5 whitespace-separated parts contribute their
fourth field parsed as i32, default 0. -/
def archAdd (l : List Char) : Int :=
  let parts := words l
  if parts.length ≥ 5 then ((parts.get? 3).bind parseI32).getD 0 else 0

/-- Loc-deleted contribution of one interior archive line (fifth field). -/
def archDel (l : List Char) : Int :=
  let parts := words l
  if parts.length ≥ 5 then ((parts.get? 4).bind parseI32).getD 0 else 0

/-- Commit contribution of one interior archive line (third field; a parse
failure contributes nothing). -/
def archCommit (l : List Char) : Int :=
  let parts := words l
  if parts.length ≥ 5 then ((parts.get? 2).bind parseI32).getD 0 else 0

/-- The extra commits parsed from the last line of the archive file
(src/query.rs lines 396-405): its fifth field with trailing commas stripped,
when the line has at least 5 fields. -/
def lastLineCommits (last? : Option (List Char)) : Int :=
  match last? with
  | none => 0
  | some l =>
    let parts := words l
    if parts.length ≥ 5 then ((parts.get? 4).map stripCommas |>.bind parseI32).getD 0 else 0

/-- `add_archive` (src/query.rs lines 364-414) applied to the archive file's
lines (read errors are filtered out by the source's `filter_map(Result::ok)`,
and `File::open` failure is outside the content model).  Returns
`[added_loc, deleted_loc, net, added_commits, contributed_repos]`. -/
def add_archive (ls : List (List Char)) : Int × Int × Int × Int × Int :=
  if ls.length < 10 then (0, 0, 0, 0, 0)
  else
    let data := (ls.drop 7).take (ls.length - 10)
    let added_loc := (data.map archAdd).sum
    let deleted_loc := (data.map archDel).sum
    let added_commits := (data.map archCommit).sum + lastLineCommits ls.getLast?
    (added_loc, deleted_loc, added_loc - deleted_loc, added_commits, (data.length : Int))

/-- One page of the repository-list response as `loc_query` reads it
(src/query.rs lines 228-238): the edge array (default empty when absent),
`pageInfo.hasNextPage` (as bool) and `pageInfo.endCursor` (as string). -/
structure RepoPage where
  edges : List Edge
  hasNextPage : Option Bool
  endCursor : Option (List Char)

/-- The pagination recursion of `loc_query` (src/query.rs lines 181-250),
with the transport modelled as `api : cursor ↦ page` and recursion depth
bounded by `fuel` (`none` = the fuel ran out, modelling non-termination).
Mirrors the source faithfully: the recursive call at line 239 passes the
ORIGINAL `cursor`, not the freshly read `pageInfo.endCursor` (which the
source computes into an unused variable at lines 236-238). -/
def locQueryFuel (api : Option (List Char) → RepoPage) :
    Nat → Option (List Char) → List Edge → Option (List Edge)
  | 0, _, _ => none
  | fuel + 1, cursor, edges =>
    let page := api cursor
    let edges := edges ++ page.edges
    if page.hasNextPage.getD false then
      locQueryFuel api fuel cursor edges
    else some edges

/-- One commit edge of a history page as `loc_counter_one_repo` reads it
(src/query.rs lines 148-155): `node.author.user.id` (null or string), and
`node.additions` / `node.deletions` (as u64, default 0). -/
structure CommitEdge where
  authorId : Option (List Char)
  additions : Option Nat
  deletions : Option Nat

/-- A history page: the `edges` array (or `none` when absent/not an array),
`pageInfo.hasNextPage` and `pageInfo.endCursor`. -/
structure History where
  edges : Option (List CommitEdge)
  hasNextPage : Option Bool
  endCursor : Option (List Char)

/-- One response of the commit-history endpoint as `recursive_loc` inspects
it (src/query.rs lines 106-135): the HTTP status, `defaultBranchRef` (null or
carrying the history page), and the response body (used in the generic error
message). -/
structure LocResponse where
  status : Nat
  branch : Option History
  body : List Char

/-- The errors `recursive_loc` returns on a non-success response: the
distinguished anti-abuse error for status 403, and the generic error carrying
the status and response body otherwise. -/
inductive LocErr where
  | abuse : LocErr
  | generic : Nat → List Char → LocErr
deriving DecidableEq

/-- `force_close_file` (src/query.rs lines 578-602): overwrite the cache file
with the cache-comment string followed by `serde_json::to_string_pretty` of
the JSON state value.  Arguments in source order `(data, cache_comment)`;
`dataP` is the serialized JSON state. -/
def force_close_file (dataP cacheComment : List Char) : List Char :=
  cacheComment ++ dataP

/-- The commit-edge fold of `loc_counter_one_repo` (src/query.rs lines
148-156): a commit whose author id is non-null and equals the tracked owner
id adds its additions/deletions to the accumulator and counts one authored
commit. -/
def commitFold (ownerId : List Char) : List CommitEdge → Nat × Nat × Nat → Nat × Nat × Nat
  | [], acc => acc
  | e :: es, (a, d, c) =>
    match e.authorId with
    | some id =>
      if id = ownerId then
        commitFold ownerId es (a + e.additions.getD 0, d + e.deletions.getD 0, c + 1)
      else commitFold ownerId es (a, d, c)
    | none => commitFold ownerId es (a, d, c)

/-- `loc_counter_one_repo` (src/query.rs lines 138-179): fold the page's
commit edges into the accumulator, then recurse to the next page (via the
`recurse` continuation, which the caller instantiates with `recursive_loc` at
the page's `endCursor` — mirroring the source's mutual recursion) when
`hasNextPage` holds and the page is non-empty; otherwise return the
accumulator.  When the `edges` field is absent the accumulator is returned
unchanged.  The second result component is the cache-file write performed on
a failure path, `none` when no write happened. -/
def locCounterOneRepo (ownerId : List Char)
    (recurse : Option (List Char) → Nat → Nat → Nat →
      Option (Except LocErr (Nat × Nat × Nat) × Option (List Char)))
    (hist : History) (a d c : Nat) :
    Option (Except LocErr (Nat × Nat × Nat) × Option (List Char)) :=
  match hist.edges with
  | some edges =>
    match commitFold ownerId edges (a, d, c) with
    | (a', d', c') =>
      if hist.hasNextPage.getD false && !edges.isEmpty then
        recurse hist.endCursor a' d' c'
      else some (.ok (a', d', c'), none)
  | none => some (.ok (a, d, c), none)

/-- `recursive_loc` (src/query.rs lines 43-136) with the transport modelled
as `api : cursor ↦ response` and recursion depth bounded by `fuel` (`none` =
fuel ran out).  On status 200 with a non-null `defaultBranchRef` the page is
processed by `locCounterOneRepo`; on a null `defaultBranchRef` it returns
`Ok((0, 0, 0))`.  On any other status it first writes the file via
`force_close_file` with the pass-through JSON state `dataP` and the cache
comment `cc`, then returns the abuse error (403) or the generic error.  The
second result component is the content written by `force_close_file`, if
any. -/
def recursiveLoc (ownerId : List Char) (api : Option (List Char) → LocResponse) :
    Nat → Option (List Char) → List Char → List Char → Nat → Nat → Nat →
    Option (Except LocErr (Nat × Nat × Nat) × Option (List Char))
  | 0, _, _, _, _, _, _ => none
  | fuel + 1, cursor, dataP, cc, a, d, c =>
    let resp := api cursor
    if resp.status = 200 then
      match resp.branch with
      | some hist =>
        locCounterOneRepo ownerId
          (fun cur a' d' c' => recursiveLoc ownerId api fuel cur dataP cc a' d' c')
          hist a d c
      | none => some (.ok (0, 0, 0), none)
    else
      let written := force_close_file dataP cc
      if resp.status = 403 then some (.error .abuse, some written)
      else some (.error (.generic resp.status resp.body), some written)

/-- The serialization of the JSON state passed through the walk:
`serde_json::to_string_pretty` of `json!({})`.  `cache_builder` initializes
`json_state` to the empty object (src/query.rs line 467) and no code path
ever mutates it, so this is its serialized form at every failure. -/
def emptyJsonObject : List Char := [Char.ofNat 123, Char.ofNat 125]

/-- Test fixture: an identity hasher mapping every name to `"h"` (the hash
function is opaque to the logic; any function is admissible). -/
def hFix : List Char → List Char := fun _ => ['h']

/-- Test fixture: the identity function as hasher (keeps names readable). -/
def hId : List Char → List Char := fun s => s

/-- Test fixture: a History Walker oracle returning additions 2, deletions 3,
authored commits 4 for every repository. -/
def wFix : List Char → List Char → Except Unit (Nat × Nat × Nat) := fun _ _ => .ok (2, 3, 4)

/-- Test fixture: a single repository edge `a/b` with fresh commit total 1. -/
def eFix : List Edge := [⟨some "a/b".toList, some 1⟩]

/-- Test fixture: two repository edges with fresh commit total 1 each. -/
def eC3 : List Edge := [⟨some "a/b".toList, some 1⟩, ⟨some "c/d".toList, some 1⟩]

/-- Test fixture: a single repository edge `a/b` with fresh commit total 5. -/
def eC2 : List Edge := [⟨some "a/b".toList, some 5⟩]

/-- Test fixture: a commit-history endpoint answering every request with
HTTP status 500 and body `oops`. -/
def api500 : Option (List Char) → LocResponse := fun _ => ⟨500, none, "oops".toList⟩

/-- Test fixture: a commit-history endpoint answering every request with
HTTP status 403 (the anti-abuse limit). -/
def api403 : Option (List Char) → LocResponse := fun _ => ⟨403, none, "limit".toList⟩

/-- Test fixture: a commit-history endpoint answering with status 200 and a
null `defaultBranchRef`. -/
def apiNull : Option (List Char) → LocResponse := fun _ => ⟨200, none, "".toList⟩

/-- Test fixture: a finite repository listing of two pages; the page at
cursor `none` has `hasNextPage = true` with end cursor `CUR2`, and the page
at any non-`none` cursor is final.  A pagination that requests the next page
at the previous end cursor exhausts this listing after two requests. -/
def apiTwoPages : Option (List Char) → RepoPage := fun cursor =>
  match cursor with
  | none => ⟨[⟨some "a/b".toList, some 1⟩], some true, some "CUR2".toList⟩
  | some _ => ⟨[], some false, none⟩

/-- C1: the claim states that running `cache_builder` twice with the same
edges and unchanged upstream commit counts leaves the cache file
byte-identical after the second run.  The code violates this: record lines
are read with `lines()` (which strips the newline) and written back with
`write!` (which adds none, src/query.rs line 521), so a record that is NOT
recomputed loses its terminating newline.  Concretely, the first run
rewrites the stale record and the file ends `"h 1 4 2 3\n"`; the second run
finds the record fresh, rewrites the file from the stripped in-memory lines,
and the file becomes `"h 1 4 2 3"` — one byte shorter.  (The second run does
report `wasFullyCached = true`; only the byte-identity part fails.) -/
theorem c1_idempotence_bug :
    cache_builder hFix wFix eFix 0 false 0 0 (some ("h 0 0 0 0\n".toList)) =
      .ok ((2, 3, -1, true), "h 1 4 2 3\n".toList, ["h 1 4 2 3\n".toList], [0]) ∧
    cache_builder hFix wFix eFix 0 false 0 0 (some ("h 1 4 2 3\n".toList)) =
      .ok ((2, 3, -1, true), "h 1 4 2 3".toList, ["h 1 4 2 3".toList], []) ∧
    "h 1 4 2 3".toList ≠ "h 1 4 2 3\n".toList :=
  ⟨rfl, rfl, by decide⟩

/-- C3: the claim states that after synchronization the cache file is the
header followed by one newline-terminated record line per repository.  The
code violates this for records that were not recomputed (their in-memory
lines carry no newline and are written with `write!`): with two up-to-date
records the file content is the two records CONCATENATED on a single line
with no terminating newline. -/
theorem c3_record_format_bug :
    cache_builder hId wFix eC3 0 false 0 0 (some ("a/b 1 2 3 4\nc/d 1 2 5 6\n".toList)) =
      .ok ((8, 10, -2, true), "a/b 1 2 3 4c/d 1 2 5 6".toList,
        ["a/b 1 2 3 4".toList, "c/d 1 2 5 6".toList], []) ∧
    chunksNL ("a/b 1 2 3 4c/d 1 2 5 6".toList) = ["a/b 1 2 3 4c/d 1 2 5 6".toList] ∧
    ("a/b 1 2 3 4c/d 1 2 5 6".toList).getLast? ≠ some '\n' :=
  ⟨rfl, rfl, by decide⟩

/-- C2 counterexample: the claim states the record at position `i` is
overwritten (and the walker invoked) iff the stored `commitCount` differs
from the fresh total.  Here the stored identity token `X` differs from the
edge's identity hash `h`, the stored count 0 differs from the fresh total 5,
and yet the walker is never invoked (empty log) and the record is unchanged:
the identity comparison at src/query.rs line 477 silently skips the entry. -/
theorem c2_counterexample :
    cache_builder hFix wFix eC2 0 false 0 0 (some ("X 0 0 0 0\n".toList)) =
      .ok ((0, 0, 0, true), "X 0 0 0 0".toList, ["X 0 0 0 0".toList], []) ∧
    (5 : Int) ≠ 0 :=
  ⟨rfl, by decide⟩

/-- C4: the claim states the History Walker persists the serialized
accumulator (additions, deletions, authoredCommits) before propagating a
non-success error.  The code passes a JSON state that is initialized to
`json!({})` and never mutated, so `force_close_file` writes the header
followed by the two bytes of the empty object — the persisted content is
INDEPENDENT of the accumulator, for status 500 (generic error with status
and body) and for status 403 (distinguished abuse error) alike. -/
theorem c4_persist_bug :
    (∀ a d c : Nat,
      recursiveLoc "me".toList api500 1 none emptyJsonObject "HDR".toList a d c =
        some (.error (.generic 500 "oops".toList), some ("HDR".toList ++ emptyJsonObject))) ∧
    (∀ a d c : Nat,
      recursiveLoc "me".toList api403 1 none emptyJsonObject "HDR".toList a d c =
        some (.error .abuse, some ("HDR".toList ++ emptyJsonObject))) :=
  ⟨fun _ _ _ => rfl, fun _ _ _ => rfl⟩

/-- C5: the claim states both paginations request the next page at the
previous response's end cursor, bounding recursion depth by the page count.
`loc_query` violates this: the recursive call at src/query.rs line 239
passes the ORIGINAL cursor (the freshly read `end_cursor` at lines 236-238
is never used), so on a finite two-page listing the recursion refetches the
first page forever and never terminates (for every fuel bound it runs out of
fuel), even though the listing is exhausted after one further request at the
end cursor. -/
theorem c5_pagination_bug :
    (∀ fuel edges, locQueryFuel apiTwoPages fuel none edges = none) ∧
    locQueryFuel apiTwoPages 1 (some "CUR2".toList) [] = some [] := by
  refine ⟨fun fuel => ?_, rfl⟩
  induction fuel with
  | zero => intro edges; rfl
  | succ n ih =>
    intro edges
    simpa [locQueryFuel, apiTwoPages] using ih (edges ++ [⟨some "a/b".toList, some 1⟩])

/-- C9 counterexample: the claim states that on a missing default branch the
walker returns the accumulator it was given unchanged, for every accumulator.
The code returns `Ok((0, 0, 0))` (src/query.rs line 124): called with
accumulator `(5, 2, 1)` it returns `(0, 0, 0)`, not `(5, 2, 1)`. -/
theorem c9_counterexample :
    recursiveLoc "me".toList apiNull 1 none emptyJsonObject "HDR".toList 5 2 1 =
      some (.ok (0, 0, 0), none) ∧
    ((0, 0, 0) : Nat × Nat × Nat) ≠ (5, 2, 1) :=
  ⟨rfl, by decide⟩

/-- C10 counterexample: the claim states malformed interior lines (fewer
than 5 fields or unparsable numeric fields) contribute zero to every total.
The archive below has exactly one interior line, `"a b c xx 7"`, whose
commit and loc-added fields are unparsable — yet it contributes 7 to
`deleted_loc` (its parsable fifth field) and 1 to `contributed_repos`, so
the result is `(0, 7, -7, 0, 1)`, not all zeros. -/
theorem c10_counterexample :
    add_archive (["f1", "f2", "f3", "f4", "f5", "f6", "f7",
        "a b c xx 7", "t1", "t2", "t3"].map String.toList) =
      (0, 7, -7, 0, 1) ∧
    ((0, 7, -7, 0, 1) : Int × Int × Int × Int × Int) ≠ (0, 0, 0, 0, 0) :=
  ⟨rfl, by decide⟩

/-- C6 counterexample: the claim states a rebuild writes one zero-valued
record per edge.  With one edge lacking a `nameWithOwner` string and a
forced rebuild, `flush_cache` writes no record at all (src/query.rs line 564
skips such edges), so the rebuilt record region is empty instead of holding
one zero record. -/
theorem c6_counterexample :
    loadAndMaybeRebuild hFix [⟨none, none⟩] 0 true (some ("x 1 1 1 1\n".toList)) =
      ([], [], false) ∧
    ([] : List (List Char)).length ≠ [(⟨none, none⟩ : Edge)].length :=
  ⟨rfl, by decide⟩


/-- `joinNL` of a cons. -/
theorem joinNL_cons (x : List Char) (r : List (List Char)) :
    joinNL (x :: r) = (x ++ ['\n']) ++ joinNL r := by
  simp [joinNL]

/-- `joinNL` distributes over append. -/
theorem joinNL_append (a b : List (List Char)) : joinNL (a ++ b) = joinNL a ++ joinNL b := by
  simp [joinNL]

/-- Splitting off one newline-free line from a chunk decomposition. -/
theorem chunksNLAux_split (l : List Char) (hl : ('\n' : Char) ∉ l) :
    ∀ (acc rest : List Char),
      chunksNLAux acc (l ++ '\n' :: rest) = (acc.reverse ++ (l ++ ['\n'])) :: chunksNL rest := by
  induction l with
  | nil => intro acc rest; simp [chunksNLAux, chunksNL]
  | cons c cs ih =>
    intro acc rest
    simp only [List.mem_cons, not_or] at hl
    have hc : ¬c = '\n' := fun h => hl.1 h.symm
    simp only [List.cons_append, chunksNLAux, if_neg hc]
    show chunksNLAux (c :: acc) (cs ++ '\n' :: rest) = _
    rw [ih hl.2 (c :: acc) rest]
    simp [List.append_assoc]

/-- Chunk decomposition of a newline-joined header followed by anything. -/
theorem chunksNL_joinNL_append (hdr : List (List Char)) (rest : List Char)
    (h : ∀ l ∈ hdr, ('\n' : Char) ∉ l) :
    chunksNL (joinNL hdr ++ rest) = hdr.map (fun l => l ++ ['\n']) ++ chunksNL rest := by
  induction hdr with
  | nil => simp [joinNL, chunksNL]
  | cons l ls ih =>
    have h1 : ('\n' : Char) ∉ l := h l (List.mem_cons_self l ls)
    have h2 : ∀ x ∈ ls, ('\n' : Char) ∉ x := fun x hx => h x (List.mem_cons_of_mem _ hx)
    have hsplit : joinNL (l :: ls) ++ rest = l ++ '\n' :: (joinNL ls ++ rest) := by
      simp [joinNL, List.append_assoc]
    rw [hsplit]
    show chunksNLAux [] _ = _
    rw [chunksNLAux_split l h1 [] (joinNL ls ++ rest)]
    show (([] : List Char).reverse ++ (l ++ ['\n'])) :: chunksNL (joinNL ls ++ rest) = _
    rw [ih h2]
    simp

/-- Stripping the newline appended to a line recovers the line. -/
theorem stripNL_concat (l : List Char) : stripNL (l ++ ['\n']) = l := by
  simp [stripNL]

/-- `rustLines` of a newline-joined header followed by anything. -/
theorem rustLines_joinNL_append (hdr : List (List Char)) (rest : List Char)
    (h : ∀ l ∈ hdr, ('\n' : Char) ∉ l) :
    rustLines (joinNL hdr ++ rest) = hdr ++ rustLines rest := by
  unfold rustLines
  rw [chunksNL_joinNL_append hdr rest h, List.map_append, List.map_map]
  have hcomp : (stripNL ∘ fun l : List Char => l ++ ['\n']) = id := by
    funext l
    exact stripNL_concat l
  rw [hcomp, List.map_id]

/-- `rustLines` inverts `joinNL` on newline-free lines. -/
theorem rustLines_joinNL (ls : List (List Char)) (h : ∀ l ∈ ls, ('\n' : Char) ∉ l) :
    rustLines (joinNL ls) = ls := by
  have h2 := rustLines_joinNL_append ls [] h
  simpa [rustLines, chunksNL, chunksNLAux] using h2

/-- The record block written by `flush_cache` is the newline-join of the
zero records without their newlines. -/
theorem zeroRecords_flatten (hash : List Char → List Char) (edges : List Edge) :
    (edges.filterMap (fun e => e.nameWithOwner.map (fun n => zeroRecordLine hash n))).flatten =
      joinNL (edges.filterMap
        (fun e => e.nameWithOwner.map (fun n => hash n ++ " 0 0 0 0".toList))) := by
  induction edges with
  | nil => rfl
  | cons e es ih =>
    cases hn : e.nameWithOwner with
    | none =>
      simp only [List.filterMap_cons, hn]
      exact ih
    | some n =>
      simp only [List.filterMap_cons, hn, Option.map_some']
      rw [List.flatten_cons, ih, joinNL_cons, zeroRecordLine]
      have hlit : " 0 0 0 0\n".toList = " 0 0 0 0".toList ++ ['\n'] := rfl
      rw [hlit]
      simp [List.append_assoc]

/-- Zero record lines contain no newline when the hasher emits none. -/
theorem zeroRecords_no_newline (hash : List Char → List Char)
    (hA : ∀ s, ('\n' : Char) ∉ hash s) (edges : List Edge) :
    ∀ l ∈ edges.filterMap (fun e => e.nameWithOwner.map (fun n => hash n ++ " 0 0 0 0".toList)),
      ('\n' : Char) ∉ l := by
  intro l hl
  rw [List.mem_filterMap] at hl
  obtain ⟨e, _, hmap⟩ := hl
  rw [Option.map_eq_some'] at hmap
  obtain ⟨n, _, rfl⟩ := hmap
  intro hmem
  rcases List.mem_append.mp hmem with h | h
  · exact hA n h
  · revert h; decide

/-- C6 (amended): whenever the loaded record count
(`data.len().saturating_sub(comment_size)`) differs from the edge count or
the force flag is set, a full rebuild runs before any staleness comparison
(`loadAndMaybeRebuild` is evaluated before `cacheLoop` inside
`cache_builder`): the first `comment_size` lines of the file are preserved
and the record region is replaced by one zero-valued record
(`<hash> 0 0 0 0`) per edge BEARING a `nameWithOwner` string, in edge order
— edges without one produce no record, the amendment forced by
`c6_counterexample` — and the cached flag is cleared.  The file is assumed
to start with `comment_size` complete newline-terminated header lines, and
the hasher's output to be newline-free. -/
theorem c6_rebuild_amended (hash : List Char → List Char) (edges : List Edge)
    (comment_size : Nat) (force : Bool) (hdr : List (List Char)) (rest : List Char)
    (hA : ∀ s, ('\n' : Char) ∉ hash s)
    (hlen : hdr.length = comment_size)
    (hnl : ∀ l ∈ hdr, ('\n' : Char) ∉ l)
    (hcond : (rustLines (joinNL hdr ++ rest)).length - comment_size ≠ edges.length ∨
      force = true) :
    loadAndMaybeRebuild hash edges comment_size force (some (joinNL hdr ++ rest)) =
      (hdr ++ edges.filterMap
         (fun e => e.nameWithOwner.map (fun n => hash n ++ " 0 0 0 0".toList)),
       joinNL (hdr ++ edges.filterMap
         (fun e => e.nameWithOwner.map (fun n => hash n ++ " 0 0 0 0".toList))),
       false) := by
  have hflush : flush_cache hash edges comment_size (joinNL hdr ++ rest) =
      joinNL (hdr ++ edges.filterMap
        (fun e => e.nameWithOwner.map (fun n => hash n ++ " 0 0 0 0".toList))) := by
    unfold flush_cache
    rw [chunksNL_joinNL_append hdr rest hnl]
    have hlenm : (hdr.map (fun l => l ++ ['\n'])).length = comment_size := by
      simp [hlen]
    rw [← hlenm, List.take_left, zeroRecords_flatten, joinNL_append]
    rfl
  have hrecnl : ∀ l ∈ hdr ++ edges.filterMap
      (fun e => e.nameWithOwner.map (fun n => hash n ++ " 0 0 0 0".toList)),
      ('\n' : Char) ∉ l := by
    intro l hl
    rcases List.mem_append.mp hl with h | h
    · exact hnl l h
    · exact zeroRecords_no_newline hash hA edges l h
  show (if (rustLines (joinNL hdr ++ rest)).length - comment_size ≠ edges.length ∨ force = true
      then
        (rustLines (flush_cache hash edges comment_size (joinNL hdr ++ rest)),
         flush_cache hash edges comment_size (joinNL hdr ++ rest), false)
      else (rustLines (joinNL hdr ++ rest), joinNL hdr ++ rest, true)) = _
  rw [if_pos hcond, hflush, rustLines_joinNL _ hrecnl]

/-- C6 witness: `c6_rebuild_amended` instantiated at a forced rebuild of a
one-line cache file with one named edge. -/
theorem c6_witness :
    loadAndMaybeRebuild hFix eFix 0 true (some (joinNL [] ++ "x\n".toList)) =
      ([] ++ eFix.filterMap
         (fun e => e.nameWithOwner.map (fun n => hFix n ++ " 0 0 0 0".toList)),
       joinNL ([] ++ eFix.filterMap
         (fun e => e.nameWithOwner.map (fun n => hFix n ++ " 0 0 0 0".toList))),
       false) :=
  c6_rebuild_amended hFix eFix 0 true [] "x\n".toList
    (fun _ => by simp [hFix]) rfl (by simp) (Or.inr rfl)

/-- Lines whose index stays below the comment size contribute nothing. -/
theorem commitCounterGo_under (comment_size : Nat) :
    ∀ (xs ys : List (List Char)) (idx : Nat), idx + xs.length ≤ comment_size →
      commitCounterGo comment_size idx (xs ++ ys) =
        commitCounterGo comment_size (idx + xs.length) ys := by
  intro xs
  induction xs with
  | nil => intro ys idx _; simp
  | cons x xs ih =>
    intro ys idx h
    have hidx : idx < comment_size := by simp at h; omega
    rw [List.cons_append, commitCounterGo, if_pos hidx, ih ys (idx + 1) (by simp at h ⊢; omega)]
    have harith : idx + 1 + xs.length = idx + (x :: xs).length := by simp; omega
    rw [harith, zero_add]

/-- Once the index has passed the comment size, the loop sums the per-line
contributions. -/
theorem commitCounterGo_over (comment_size : Nat) :
    ∀ (ys : List (List Char)) (idx : Nat), comment_size ≤ idx →
      commitCounterGo comment_size idx ys = (ys.map commitContrib).sum := by
  intro ys
  induction ys with
  | nil => intro idx _; rfl
  | cons y ys ih =>
    intro idx h
    rw [commitCounterGo, if_neg (by omega), ih (idx + 1) (by omega)]
    simp

/-- C8 (amended): `commit_counter` reads the cache file, skips the first
`comment_size` lines by index, and sums the per-line contribution of every
remaining line — which is the THIRD whitespace-separated field
(`locTotal`, the authored-commit count), not the second (`commitCount`), of
each line with more than 3 fields, parsed as i32 with parse failures
contributing nothing (see `commitContrib` and `c8_counterexample`).  The
only failure mode is the file `open`/read I/O error, outside the content
model. -/
theorem c8_commit_totalizer_amended (comment_size : Nat) (hdr recs : List (List Char))
    (hlen : hdr.length = comment_size)
    (hnl : ∀ l ∈ hdr ++ recs, ('\n' : Char) ∉ l) :
    commit_counter comment_size (joinNL (hdr ++ recs)) = (recs.map commitContrib).sum := by
  unfold commit_counter
  rw [rustLines_joinNL _ hnl, commitCounterGo_under comment_size hdr recs 0 (by omega)]
  exact commitCounterGo_over comment_size recs (0 + hdr.length) (by omega)

/-- C8 witness: `c8_commit_totalizer_amended` at a one-line header and the
single record `"h 5 7 0 0"` (the sum evaluates to the third field, 7). -/
theorem c8_witness :
    commit_counter 1 (joinNL (["c".toList] ++ ["h 5 7 0 0".toList])) =
      ((["h 5 7 0 0".toList]).map commitContrib).sum :=
  c8_commit_totalizer_amended 1 ["c".toList] ["h 5 7 0 0".toList] rfl (by decide)

/-- C9 (amended): when the queried repository has no default branch
(status 200, null `defaultBranchRef`), `recursive_loc` returns
`Ok((0, 0, 0))` — a ZEROED accumulator, treating the repository as a
zero-commit repository rather than an error — discarding whatever
accumulator it was given (it does not return the accumulator unchanged, see
`c9_counterexample`); no cache-file write happens on this path. -/
theorem c9_zero_branch_amended (ownerId : List Char)
    (api : Option (List Char) → LocResponse) (fuel : Nat) (cursor : Option (List Char))
    (dataP cc : List Char) (a d c : Nat)
    (hs : (api cursor).status = 200) (hb : (api cursor).branch = none) :
    recursiveLoc ownerId api (fuel + 1) cursor dataP cc a d c = some (.ok (0, 0, 0), none) := by
  rw [recursiveLoc, if_pos hs, hb]

/-- C9 witness: `c9_zero_branch_amended` at the null-branch endpoint with
accumulator `(5, 2, 1)`. -/
theorem c9_witness :
    recursiveLoc "me".toList apiNull 1 none emptyJsonObject "HDR".toList 5 2 1 =
      some (.ok (0, 0, 0), none) :=
  c9_zero_branch_amended "me".toList apiNull 0 none emptyJsonObject "HDR".toList 5 2 1 rfl rfl

/-- The cached flag produced by steps 1-2 of `cache_builder` is true exactly
when the rebuild was not triggered. -/
theorem loadAndMaybeRebuild_cached (hash : List Char → List Char) (edges : List Edge)
    (comment_size : Nat) (force : Bool) (file : Option (List Char)) :
    ((loadAndMaybeRebuild hash edges comment_size force file).2.2 = true ↔
      ((initialData comment_size file).1.length - comment_size = edges.length ∧
        force = false)) := by
  have heq : loadAndMaybeRebuild hash edges comment_size force file =
      if (initialData comment_size file).1.length - comment_size ≠ edges.length ∨
          force = true then
        (rustLines (flush_cache hash edges comment_size (initialData comment_size file).2),
         flush_cache hash edges comment_size (initialData comment_size file).2, false)
      else ((initialData comment_size file).1, (initialData comment_size file).2, true) := rfl
  rw [heq]
  by_cases h : (initialData comment_size file).1.length - comment_size ≠ edges.length ∨
      force = true
  · rw [if_pos h]
    constructor
    · intro hh; exact absurd hh (by simp)
    · rintro ⟨h1, h2⟩
      rcases h with h | h
      · exact absurd h1 h
      · rw [h2] at h; exact absurd h (by simp)
  · rw [if_neg h]
    push_neg at h
    exact ⟨fun _ => ⟨h.1, by simpa using h.2⟩, fun _ => rfl⟩

/-- C7: synchronization returns `addedLoc` equal to the sum of the
loc-added field over all records, `deletedLoc` equal to the sum of the
loc-deleted field, `netLoc = addedLoc - deletedLoc`, and
`wasFullyCached = true` iff the rebuild step was not triggered (the loaded
record count matched the edge count and the force flag was unset) —
regardless of whether individual records were recomputed. -/
theorem c7_aggregates {ε : Type} (hash : List Char → List Char)
    (walk : List Char → List Char → Except ε (Nat × Nat × Nat)) (edges : List Edge)
    (comment_size : Nat) (force : Bool) (file : Option (List Char))
    (res : Int × Int × Int × Bool) (content : List Char) (recs : List (List Char))
    (log : List Nat)
    (h : cache_builder hash walk edges comment_size force 0 0 file =
      .ok (res, content, recs, log)) :
    res.1 = sumLocAdd recs ∧ res.2.1 = sumLocDel recs ∧ res.2.2.1 = res.1 - res.2.1 ∧
      (res.2.2.2 = true ↔
        ((initialData comment_size file).1.length - comment_size = edges.length ∧
          force = false)) := by
  unfold cache_builder at h
  dsimp only at h
  split at h
  · exact absurd h (by simp)
  · split at h
    · exact absurd h (by simp)
    · rename_i lines' walkLog heq2
      simp only [Except.ok.injEq, Prod.mk.injEq] at h
      obtain ⟨hres, -, hrecs, -⟩ := h
      subst hres
      subst hrecs
      refine ⟨by simp, by simp, by simp, ?_⟩
      simpa using loadAndMaybeRebuild_cached hash edges comment_size force file

/-- C7 witness: `c7_aggregates` at a concrete one-record run over an
existing cache file with one stale record. -/
theorem c7_witness :
    ((2 : Int), (3 : Int), (-1 : Int), true).1 = sumLocAdd ["h 1 4 2 3\n".toList] ∧
    ((2 : Int), (3 : Int), (-1 : Int), true).2.1 = sumLocDel ["h 1 4 2 3\n".toList] ∧
    ((2 : Int), (3 : Int), (-1 : Int), true).2.2.1 =
      ((2 : Int), (3 : Int), (-1 : Int), true).1 -
        ((2 : Int), (3 : Int), (-1 : Int), true).2.1 ∧
    (((2 : Int), (3 : Int), (-1 : Int), true).2.2.2 = true ↔
      ((initialData 0 (some ("h 0 0 0 0\n".toList))).1.length - 0 = eFix.length ∧
        false = false)) :=
  c7_aggregates hFix wFix eFix 0 false (some ("h 0 0 0 0\n".toList))
    (2, 3, -1, true) ("h 1 4 2 3\n".toList) ["h 1 4 2 3\n".toList] [0] rfl

/-- A positive stale decision requires a record line at the position. -/
theorem staleDecision_some_line {hash : List Char → List Char} {e : Edge}
    {line? : Option (List Char)} {z : List Char × List Char × List Char × Int}
    (h : staleDecision hash e line? = some z) : ∃ l, line? = some l := by
  cases hn : e.nameWithOwner with
  | none => simp [staleDecision, hn] at h
  | some n =>
    cases hl : line? with
    | some l => exact ⟨l, rfl⟩
    | none => simp [staleDecision, hn, hl] at h

/-- Characterization of the staleness loop: positions outside the iteration
range are untouched and never walked, and each in-range position is walked
exactly once and overwritten iff its stale decision is positive. -/
theorem cacheLoop_char {ε : Type} (hash : List Char → List Char)
    (walk : List Char → List Char → Except ε (Nat × Nat × Nat)) :
    ∀ (es : List Edge) (k : Nat) (L L' : List (List Char)) (log : List Nat),
      cacheLoop hash walk es k L = .ok (L', log) →
      ((∀ j, (j < k ∨ k + es.length ≤ j) → L'.get? j = L.get? j ∧ log.count j = 0) ∧
       (∀ m e, es.get? m = some e →
         (staleDecision hash e (L.get? (k + m)) = none →
           L'.get? (k + m) = L.get? (k + m) ∧ log.count (k + m) = 0) ∧
         (∀ hs ow rp cur,
           staleDecision hash e (L.get? (k + m)) = some (hs, ow, rp, cur) →
           log.count (k + m) = 1 ∧ ∃ a d t, walk ow rp = .ok (a, d, t) ∧
             L'.get? (k + m) = some (recordLine hs cur t a d)))) := by
  intro es
  induction es with
  | nil =>
    intro k L L' log h
    rw [cacheLoop] at h
    simp only [Except.ok.injEq, Prod.mk.injEq] at h
    obtain ⟨rfl, rfl⟩ := h
    constructor
    · intro j _; exact ⟨rfl, rfl⟩
    · intro m e hm; simp at hm
  | cons e es ih =>
    intro k L L' log h
    rw [cacheLoop] at h
    cases hsd : staleDecision hash e (L.get? k) with
    | none =>
      rw [hsd] at h
      have IH := ih (k + 1) L L' log h
      constructor
      · intro j hj
        refine IH.1 j ?_
        simp only [List.length_cons] at hj
        omega
      · intro m e' hm
        cases m with
        | zero =>
          rw [List.get?_cons_zero] at hm
          obtain ⟨rfl⟩ := Option.some.injEq _ _ ▸ hm
          rw [Nat.add_zero]
          constructor
          · intro _
            exact IH.1 k (Or.inl (by omega))
          · intro hs ow rp cur hsome
            rw [hsd] at hsome
            exact absurd hsome (by simp)
        | succ m' =>
          rw [List.get?_cons_succ] at hm
          have harith : k + (m' + 1) = k + 1 + m' := by omega
          rw [harith]
          exact IH.2 m' e' hm
    | some z =>
      obtain ⟨hs, ow, rp, cur⟩ := z
      rw [hsd] at h
      dsimp only at h
      cases hw : walk ow rp with
      | error err => rw [hw] at h; exact absurd h (by simp)
      | ok v =>
        obtain ⟨a, d, t⟩ := v
        rw [hw] at h
        dsimp only at h
        cases hrec : cacheLoop hash walk es (k + 1) (L.set k (recordLine hs cur t a d)) with
        | error err => rw [hrec] at h; exact absurd h (by simp)
        | ok p =>
          obtain ⟨ls, lg⟩ := p
          rw [hrec] at h
          dsimp only at h
          simp only [Except.ok.injEq, Prod.mk.injEq] at h
          obtain ⟨rfl, rfl⟩ := h
          have IH := ih (k + 1) (L.set k (recordLine hs cur t a d)) ls lg hrec
          obtain ⟨line, hline⟩ := staleDecision_some_line hsd
          have hkL : k < L.length := by
            by_contra hc
            push_neg at hc
            rw [List.get?_eq_none.mpr hc] at hline
            exact absurd hline (by simp)
          constructor
          · intro j hj
            simp only [List.length_cons] at hj
            have hjne : j ≠ k := by omega
            have hjne2 : ¬k = j := by omega
            have hout := IH.1 j (by omega)
            constructor
            · rw [hout.1, List.get?_set_ne _ _ (Ne.symm hjne)]
            · rw [List.count_cons]
              simp [hjne, hjne2, hout.2]
          · intro m e' hm
            cases m with
            | zero =>
              rw [List.get?_cons_zero] at hm
              obtain ⟨rfl⟩ := Option.some.injEq _ _ ▸ hm
              rw [Nat.add_zero]
              constructor
              · intro hnone
                rw [hsd] at hnone
                exact absurd hnone (by simp)
              · intro hs' ow' rp' cur' hsome
                rw [hsd] at hsome
                simp only [Option.some.injEq, Prod.mk.injEq] at hsome
                obtain ⟨rfl, rfl, rfl, rfl⟩ := hsome
                have hout := IH.1 k (Or.inl (by omega))
                constructor
                · rw [List.count_cons]
                  simp [hout.2]
                · exact ⟨a, d, t, hw, by
                    rw [hout.1, List.get?_set_eq_of_lt _ hkL]⟩
            | succ m' =>
              rw [List.get?_cons_succ] at hm
              have harith : k + (m' + 1) = k + 1 + m' := by omega
              rw [harith]
              have hget : (L.set k (recordLine hs cur t a d)).get? (k + 1 + m') =
                  L.get? (k + 1 + m') := List.get?_set_ne _ _ (by omega)
              have IH2 := IH.2 m' e' hm
              rw [hget] at IH2
              have hne : k + 1 + m' ≠ k := by omega
              have hne2 : ¬k = k + 1 + m' := by omega
              constructor
              · intro hnone
                have hres := IH2.1 hnone
                refine ⟨hres.1, ?_⟩
                rw [List.count_cons]
                simp [hne, hne2, hres.2]
              · intro hs' ow' rp' cur' hsome
                have hres := IH2.2 hs' ow' rp' cur' hsome
                refine ⟨?_, hres.2⟩
                rw [List.count_cons]
                simp [hne, hne2, hres.1]

/-- C2 (amended): for every edge at position `i`, the History Walker is
invoked exactly once (log count 1) and the record at position `i` is
overwritten with the freshly formatted record line iff the guard chain of
the loop body fires — i.e. the edge carries a `nameWithOwner`, a record line
exists at position `i`, its FIRST TOKEN EQUALS the edge's identity hash, and
the stored commit count differs from the fresh total (`staleDecision`).
When the guard does not fire — in particular when the counts match, but ALSO
when the identity token mismatches even with differing counts
(`c2_counterexample`) — the walker is never invoked and the record is
unchanged. -/
theorem c2_staleness_amended {ε : Type} (hash : List Char → List Char)
    (walk : List Char → List Char → Except ε (Nat × Nat × Nat)) (edges : List Edge)
    (L L' : List (List Char)) (log : List Nat)
    (hrun : cacheLoop hash walk edges 0 L = .ok (L', log)) :
    ∀ i e, edges.get? i = some e →
      (staleDecision hash e (L.get? i) = none →
        L'.get? i = L.get? i ∧ log.count i = 0) ∧
      (∀ hs ow rp cur, staleDecision hash e (L.get? i) = some (hs, ow, rp, cur) →
        log.count i = 1 ∧ ∃ a d t, walk ow rp = .ok (a, d, t) ∧
          L'.get? i = some (recordLine hs cur t a d)) := by
  intro i e hi
  have hchar := (cacheLoop_char hash walk edges 0 L L' log hrun).2 i e hi
  simpa using hchar

/-- C2 witness: `c2_staleness_amended` at a concrete one-stale-record loop
run: the walker runs exactly once at position 0 and the record is
overwritten with the new record line. -/
theorem c2_witness :
    ([0] : List Nat).count 0 = 1 ∧ ∃ a d t,
      wFix "a".toList "b".toList = .ok (a, d, t) ∧
      (["h 1 4 2 3\n".toList] : List (List Char)).get? 0 =
        some (recordLine ['h'] 1 t a d) :=
  (c2_staleness_amended hFix wFix eFix ["h 0 0 0 0".toList] ["h 1 4 2 3\n".toList] [0] rfl
    0 ⟨some "a/b".toList, some 1⟩ rfl).2 ['h'] "a".toList "b".toList 1 rfl

/-- `take` and `set` commute when the position stays inside the prefix. -/
theorem take_set_of_lt {α : Type} (x : α) :
    ∀ (l : List α) (i m : Nat), i < m → (l.set i x).take m = (l.take m).set i x := by
  intro l
  induction l with
  | nil => intro i m _; simp
  | cons hd tl ih =>
    intro i m h
    cases i with
    | zero =>
      cases m with
      | zero => omega
      | succ m' => simp
    | succ i' =>
      cases m with
      | zero => omega
      | succ m' => simp [ih i' m' (by omega)]

/-- Summing a mapped list after a single in-range update. -/
theorem sum_map_set (f : List Char → Int) :
    ∀ (l : List (List Char)) (i : Nat) (x : List Char), i < l.length →
      ((l.set i x).map f).sum = (l.map f).sum - f (l.getD i []) + f x := by
  intro l
  induction l with
  | nil => intro i x h; simp at h
  | cons hd tl ih =>
    intro i x h
    cases i with
    | zero =>
      simp [List.getD_cons_zero]
      ring
    | succ i' =>
      simp only [List.set, List.map_cons, List.sum_cons, List.getD_cons_succ]
      rw [ih i' x (by simpa using h)]
      ring

/-- Updating an interior archive line commutes with extracting the data
region, leaves the last line unchanged, and hits the data region at the
shifted index. -/
theorem interior_set_decomp (ls : List (List Char)) (i : Nat) (x : List Char)
    (h7 : 7 ≤ i) (hlt : i < ls.length - 3) :
    ((ls.set i x).drop 7).take ((ls.set i x).length - 10) =
      ((ls.drop 7).take (ls.length - 10)).set (i - 7) x ∧
    (ls.set i x).getLast? = ls.getLast? ∧
    ((ls.drop 7).take (ls.length - 10)).getD (i - 7) [] = ls.getD i [] ∧
    i - 7 < ((ls.drop 7).take (ls.length - 10)).length := by
  have hlen : 11 ≤ ls.length := by omega
  have hdata : i - 7 < ls.length - 10 := by omega
  refine ⟨?_, ?_, ?_, ?_⟩
  · rw [List.length_set, List.drop_set, if_neg (by omega : ¬i < 7),
      take_set_of_lt x _ _ _ hdata]
  · rw [List.getLast?_eq_get?, List.getLast?_eq_get?, List.length_set,
      List.get?_eq_getElem?, List.get?_eq_getElem?,
      List.getElem?_set_ne (by omega : i ≠ ls.length - 1)]
  · rw [List.getD_eq_getElem?_getD, List.getD_eq_getElem?_getD,
      ← List.get?_eq_getElem?, ← List.get?_eq_getElem?,
      List.get?_take hdata, List.get?_drop]
    rw [show 7 + (i - 7) = i from by omega]
  · refine lt_of_lt_of_le hdata ?_
    rw [List.length_take, List.length_drop]
    exact le_min (le_refl _) (by omega)

/-- C10 (amended): an archive with fewer than 10 lines yields the zero
result; an interior line with fewer than 5 whitespace-separated fields
contributes zero to all numeric totals and never causes a failure
(replacing it by an empty line leaves the entire result — including
`contributed_repos`, which still counts it — unchanged); and an interior
line whose loc-added field is unparsable contributes zero to `added_loc`
specifically, even though its other parsable fields still contribute to
their own totals (`c10_counterexample`). -/
theorem c10_add_archive_amended :
    (∀ ls : List (List Char), ls.length < 10 → add_archive ls = (0, 0, 0, 0, 0)) ∧
    (∀ (ls : List (List Char)) (i : Nat), 7 ≤ i → i < ls.length - 3 →
      (words (ls.getD i [])).length < 5 →
      add_archive ls = add_archive (ls.set i [])) ∧
    (∀ (ls : List (List Char)) (i : Nat), 7 ≤ i → i < ls.length - 3 →
      ((words (ls.getD i [])).get? 3).bind parseI32 = none →
      (add_archive ls).1 = (add_archive (ls.set i [])).1) := by
  have harchAddNil : archAdd [] = 0 := by decide
  have harchDelNil : archDel [] = 0 := by decide
  have harchComNil : archCommit [] = 0 := by decide
  refine ⟨?_, ?_, ?_⟩
  · intro ls h
    unfold add_archive
    rw [if_pos h]
  · intro ls i h7 hlt hmal
    obtain ⟨hdata, hlast, hgetD, hbound⟩ := interior_set_decomp ls i [] h7 hlt
    have hAdd0 : archAdd (ls.getD i []) = 0 := by
      simp only [archAdd]; rw [if_neg (by omega)]
    have hDel0 : archDel (ls.getD i []) = 0 := by
      simp only [archDel]; rw [if_neg (by omega)]
    have hCom0 : archCommit (ls.getD i []) = 0 := by
      simp only [archCommit]; rw [if_neg (by omega)]
    unfold add_archive
    rw [if_neg (by omega : ¬ls.length < 10),
      if_neg (by rw [List.length_set]; omega : ¬(ls.set i []).length < 10)]
    dsimp only
    rw [hdata, hlast, sum_map_set archAdd _ _ _ hbound, sum_map_set archDel _ _ _ hbound,
      sum_map_set archCommit _ _ _ hbound, hgetD, hAdd0, hDel0, hCom0]
    simp only [List.length_set, harchAddNil, harchDelNil, harchComNil, sub_zero, add_zero]
  · intro ls i h7 hlt hmal
    obtain ⟨hdata, hlast, hgetD, hbound⟩ := interior_set_decomp ls i [] h7 hlt
    have hAdd0 : archAdd (ls.getD i []) = 0 := by
      simp only [archAdd]
      by_cases hw : (words (ls.getD i [])).length ≥ 5
      · rw [if_pos hw, hmal]; rfl
      · rw [if_neg hw]
    unfold add_archive
    rw [if_neg (by omega : ¬ls.length < 10),
      if_neg (by rw [List.length_set]; omega : ¬(ls.set i []).length < 10)]
    dsimp only
    rw [hdata, sum_map_set archAdd _ _ _ hbound, hgetD, hAdd0]
    simp only [harchAddNil, sub_zero, add_zero]

/-- C10 witness: `c10_add_archive_amended` at a 9-line archive (zero
result) and at an 11-line archive whose single interior line `"x y"` has
fewer than 5 fields (replacing it with an empty line changes nothing). -/
theorem c10_witness :
    add_archive (["a", "b", "c", "d", "e", "f", "g", "h", "i"].map String.toList) =
      (0, 0, 0, 0, 0) ∧
    add_archive (["f1", "f2", "f3", "f4", "f5", "f6", "f7", "x y",
        "t1", "t2", "t3"].map String.toList) =
      add_archive ((["f1", "f2", "f3", "f4", "f5", "f6", "f7", "x y",
        "t1", "t2", "t3"].map String.toList).set 7 []) :=
  ⟨c10_add_archive_amended.1 _ (by decide),
   c10_add_archive_amended.2.1 _ 7 (by decide) (by decide) (by decide)⟩

/-- C8 counterexample: the claim states `commit_counter` sums each record's
`commitCount` field.  On the record `"h 5 7 0 0"` (commitCount 5, locTotal
7) it returns 7 — it sums the third field (`locTotal`, the authored-commit
count, query.rs line 269: `parts[2]`), not the second (`commitCount`). -/
theorem c8_counterexample :
    commit_counter 0 ("h 5 7 0 0\n".toList) = 7 ∧ (7 : Int) ≠ 5 :=
  ⟨rfl, by decide⟩
